import Mathlib

/-! # esphomelib UART component: software serial ring buffer, framing and read timeout

A shallow embedding of `src/esphomelib/uart_component.cpp` (the ESP8266 branch, where the
channel is either the default hardware serial or the bit-banged `ESP8266SoftwareSerial`).

Conventions of the embedding.

* `uint32_t` / `size_t` values are natural numbers, every arithmetic result is reduced
  modulo `2 ^ 32`; `int` is a two's complement 32 bit integer.
* `uint8_t` values are natural numbers below `256`.
* The receive buffer `rx_buffer_` is a list of bytes; `setup` allocates
  `rx_buffer_size_` cells.
* Hardware that the code talks to is an explicit argument: the `GPI` register values seen
  by the successive `read_bit_` calls, the values returned by the successive `millis()`
  calls, and the frames that arrive while a reader polls.
-/

namespace esphomelib

/-- Number of values of a 32 bit word (`uint32_t`, `size_t` on the ESP8266). -/
def WORD : Nat := 2 ^ 32

/-- Conversion of an integer value to the 32 bit signed `int` (two's complement); the
constants are `2 ^ 32 = 4294967296` and `2 ^ 31 = 2147483648`. -/
def toInt32 (i : Int) : Int :=
  let m : Nat := (i % 4294967296).toNat
  if m < 2147483648 then (m : Int) else (m : Int) - 4294967296

/-- The fields of `class ESP8266SoftwareSerial` that the member functions of
`uart_component.cpp` read and write. -/
structure ESP8266SoftwareSerial where
  bit_time_ : Nat
  rx_mask_ : Nat
  tx_mask_ : Nat
  rx_buffer_ : List Nat
  rx_buffer_size_ : Nat
  rx_in_pos_ : Nat
  rx_out_pos_ : Nat
  deriving DecidableEq, Repr

namespace ESP8266SoftwareSerial

/-- Modelled from the spec: the member initialisers of `class ESP8266SoftwareSerial` live in
`uart_component.h`, which is not part of the sources at hand. The spec fixes the capacity at
initialisation and lets both indices start equal; the object starts with no pin mask, no
buffer and both indices at zero. The capacity is a parameter. -/
def fresh (capacity : Nat) : ESP8266SoftwareSerial :=
  { bit_time_ := 0, rx_mask_ := 0, tx_mask_ := 0, rx_buffer_ := [],
    rx_buffer_size_ := capacity, rx_in_pos_ := 0, rx_out_pos_ := 0 }

/-- Embedding of `ESP8266SoftwareSerial::setup`. `F_CPU` is the clock frequency macro of the
platform, taken as a parameter; `new uint8_t[rx_buffer_size_]` yields `rx_buffer_size_` cells
whose initial contents `cells` are not determined by the program (only the first
`rx_buffer_size_` of them are used, missing ones read as zero). The interrupt handler is
attached exactly when `rx_pin != -1`. -/
def setup (F_CPU : Nat) (cells : List Nat) (s : ESP8266SoftwareSerial)
    (tx_pin rx_pin : Int) (baud_rate : Nat) : ESP8266SoftwareSerial :=
  let s1 := { s with bit_time_ := (F_CPU / baud_rate) % WORD }
  let s2 := if tx_pin ≠ -1 then { s1 with tx_mask_ := (1 <<< tx_pin.toNat) % WORD } else s1
  if rx_pin ≠ -1 then
    { s2 with rx_mask_ := (1 <<< rx_pin.toNat) % WORD,
              rx_buffer_ := (List.range s2.rx_buffer_size_).map (fun i => cells.getD i 0 % 256) }
  else s2

/-- Embedding of `ESP8266SoftwareSerial::wait_`: the busy loop returns once the cycle counter
has moved `wait` cycles past `start`; afterwards `wait += bit_time_` in `uint32_t`. The result
is the new value of `wait`. -/
def wait_ (s : ESP8266SoftwareSerial) (wait : Nat) : Nat :=
  (wait + s.bit_time_) % WORD

/-- Embedding of `ESP8266SoftwareSerial::read_bit_`: waits, then samples the receive pin in the
`GPI` register value `gpi`. Returns the sampled bit and the new value of `wait`. -/
def read_bit_ (s : ESP8266SoftwareSerial) (gpi : Nat) (wait : Nat) : Nat × Nat :=
  (if gpi &&& s.rx_mask_ ≠ 0 then 1 else 0, s.wait_ wait)

/-- Embedding of `ESP8266SoftwareSerial::write_bit_`: drives the transmit pin to `bit`
(`tx_high_` or `tx_low_`), then waits. Returns the level driven with the deadline it is held
until, and the new value of `wait`. -/
def write_bit_ (s : ESP8266SoftwareSerial) (bit : Bool) (wait : Nat) : (Bool × Nat) × Nat :=
  ((bit, wait), s.wait_ wait)

/-- What one run of the interrupt handler does: the new object state, the byte it
reconstructed (`rec` in the source), and the values of `wait` that the nine `wait_` calls
waited for. -/
structure IntrResult where
  state : ESP8266SoftwareSerial
  received : Nat
  deadlines : List Nat

/-- Embedding of `ESP8266SoftwareSerial::gpio_intr_`, the falling edge interrupt handler;
`gpi k` is the value of the `GPI` register read by the `k`-th `read_bit_` call
(`k = 0 .. 7`). -/
def gpio_intr_ (s : ESP8266SoftwareSerial) (gpi : Nat → Nat) : IntrResult :=
  let wait0 := (s.bit_time_ + s.bit_time_ / 3 + (WORD - 500)) % WORD
  let r0 := s.read_bit_ (gpi 0) wait0
  let rec0 := (0 ||| (r0.1 <<< 0)) % 256
  let r1 := s.read_bit_ (gpi 1) r0.2
  let rec1 := (rec0 ||| (r1.1 <<< 1)) % 256
  let r2 := s.read_bit_ (gpi 2) r1.2
  let rec2 := (rec1 ||| (r2.1 <<< 2)) % 256
  let r3 := s.read_bit_ (gpi 3) r2.2
  let rec3 := (rec2 ||| (r3.1 <<< 3)) % 256
  let r4 := s.read_bit_ (gpi 4) r3.2
  let rec4 := (rec3 ||| (r4.1 <<< 4)) % 256
  let r5 := s.read_bit_ (gpi 5) r4.2
  let rec5 := (rec4 ||| (r5.1 <<< 5)) % 256
  let r6 := s.read_bit_ (gpi 6) r5.2
  let rec6 := (rec5 ||| (r6.1 <<< 6)) % 256
  let r7 := s.read_bit_ (gpi 7) r6.2
  let rec7 := (rec6 ||| (r7.1 <<< 7)) % 256
  -- Stop bit
  let _wait9 := s.wait_ r7.2
  { state := { s with rx_buffer_ := s.rx_buffer_.set s.rx_in_pos_ rec7,
                      rx_in_pos_ := ((s.rx_in_pos_ + 1) % WORD) % s.rx_buffer_size_ },
    received := rec7,
    deadlines := [wait0, r0.2, r1.2, r2.2, r3.2, r4.2, r5.2, r6.2, r7.2] }

/-- Embedding of `ESP8266SoftwareSerial::write_byte`: the sequence of line levels driven on the
transmit pin, each with the deadline (in cycles after `start`) it is held until. Nothing is
driven when no transmit pin is configured. -/
def write_byte (s : ESP8266SoftwareSerial) (data : Nat) : List (Bool × Nat) :=
  if s.tx_mask_ = 0 then []
  else
    let wait := s.bit_time_ % WORD
    -- Start bit
    let w0 := s.write_bit_ false wait
    let w1 := s.write_bit_ (decide (data &&& (1 <<< 0) ≠ 0)) w0.2
    let w2 := s.write_bit_ (decide (data &&& (1 <<< 1) ≠ 0)) w1.2
    let w3 := s.write_bit_ (decide (data &&& (1 <<< 2) ≠ 0)) w2.2
    let w4 := s.write_bit_ (decide (data &&& (1 <<< 3) ≠ 0)) w3.2
    let w5 := s.write_bit_ (decide (data &&& (1 <<< 4) ≠ 0)) w4.2
    let w6 := s.write_bit_ (decide (data &&& (1 <<< 5) ≠ 0)) w5.2
    let w7 := s.write_bit_ (decide (data &&& (1 <<< 6) ≠ 0)) w6.2
    let w8 := s.write_bit_ (decide (data &&& (1 <<< 7) ≠ 0)) w7.2
    -- Stop bit
    let w9 := s.write_bit_ true w8.2
    [w0.1, w1.1, w2.1, w3.1, w4.1, w5.1, w6.1, w7.1, w8.1, w9.1]

/-- Embedding of `ESP8266SoftwareSerial::read_byte`: the byte returned and the new object state. -/
def read_byte (s : ESP8266SoftwareSerial) : Nat × ESP8266SoftwareSerial :=
  if s.rx_in_pos_ = s.rx_out_pos_ then (0, s)
  else
    (s.rx_buffer_.getD s.rx_out_pos_ 0,
     { s with rx_out_pos_ := ((s.rx_out_pos_ + 1) % WORD) % s.rx_buffer_size_ })

/-- Embedding of `ESP8266SoftwareSerial::peek_byte`: the byte returned and the object state
after the call. -/
def peek_byte (s : ESP8266SoftwareSerial) : Nat × ESP8266SoftwareSerial :=
  if s.rx_in_pos_ = s.rx_out_pos_ then (0, s)
  else (s.rx_buffer_.getD s.rx_out_pos_ 0, s)

/-- Embedding of `ESP8266SoftwareSerial::flush`. -/
def flush (s : ESP8266SoftwareSerial) : ESP8266SoftwareSerial :=
  { s with rx_in_pos_ := 0, rx_out_pos_ := 0 }

/-- Embedding of `ESP8266SoftwareSerial::available`: `int avail = int(rx_in_pos_) -
int(rx_out_pos_)`; a negative `avail` is returned as `avail + rx_buffer_size_` computed in
`size_t`. -/
def available (s : ESP8266SoftwareSerial) : Nat :=
  let avail : Int := toInt32 (toInt32 s.rx_in_pos_ - toInt32 s.rx_out_pos_)
  if avail < 0 then ((avail + (s.rx_buffer_size_ : Int)) % 4294967296).toNat
  else avail.toNat

/-- Buffer operations as seen by the ring buffer: a run of the receive interrupt with the
given pin samples, or one of the consumer calls. -/
inductive RingOp where
  | gpio_intr_ (gpi : Nat → Nat)
  | read_byte
  | peek_byte
  | flush

/-- One buffer operation applied to the object. -/
def step (s : ESP8266SoftwareSerial) : RingOp → ESP8266SoftwareSerial
  | .gpio_intr_ gpi => (s.gpio_intr_ gpi).state
  | .read_byte => s.read_byte.2
  | .peek_byte => s.peek_byte.2
  | .flush => s.flush

/-- Any interleaving of handler runs and consumer calls, applied left to right. -/
def run (s : ESP8266SoftwareSerial) (ops : List RingOp) : ESP8266SoftwareSerial :=
  ops.foldl step s

/-- The handler run once per element of `frames`, in order, with no read in between. -/
def receive (s : ESP8266SoftwareSerial) (frames : List (Nat → Nat)) : ESP8266SoftwareSerial :=
  frames.foldl (fun s gpi => (s.gpio_intr_ gpi).state) s

/-- The bytes the handler reconstructs from the pin samples of each frame. The bytes depend
on the receive mask only, which no operation after `setup` changes. -/
def received (s : ESP8266SoftwareSerial) (frames : List (Nat → Nat)) : List Nat :=
  frames.map (fun gpi => (s.gpio_intr_ gpi).received)

/-- The inner loop of `read_array` for the software channel: `for i < len` do
`data[i] = read_byte()`. Returns `data` and the new object state. -/
def read_bytes : Nat → ESP8266SoftwareSerial → List Nat × ESP8266SoftwareSerial
  | 0, s => ([], s)
  | len + 1, s =>
    let r := s.read_byte
    let rest := read_bytes len r.2
    (r.1 :: rest.1, rest.2)

/-- Draining the buffer: `while (available() > 0) out.push(read_byte())`. The loop is the
caller's; `fuel` bounds the number of iterations and `none` means the bound was hit. -/
def drain : Nat → ESP8266SoftwareSerial → Option (List Nat × ESP8266SoftwareSerial)
  | 0, s => if 0 < s.available then none else some ([], s)
  | fuel + 1, s =>
    if 0 < s.available then
      let r := s.read_byte
      match drain fuel r.2 with
      | some rest => some (r.1 :: rest.1, rest.2)
      | none => none
    else some ([], s)

/-- Pin samples of a looped back frame: the `k`-th data sample sees the level of cell
`k + 1` of the frame on the receive pin (cell `0` is the start bit, a line that is not
driven idles high); the other pins of the `GPI` register read low. -/
def loopback (s : ESP8266SoftwareSerial) (frame : List (Bool × Nat)) : Nat → Nat :=
  fun k => if (frame.map Prod.fst).getD (k + 1) true then s.rx_mask_ else 0

/-- Pin samples of a frame carrying the byte `b`: the `k`-th data sample reads the receive
pin high exactly when bit `k` of `b` is set, all other pins low. -/
def samplesOf (s : ESP8266SoftwareSerial) (b : Nat) : Nat → Nat :=
  fun k => if b.testBit k then s.rx_mask_ else 0

/-! ### Example objects -/

/-- An example object: capacity 8, receive pin 3, transmit pin 1, bit period of 9600 baud at
80 MHz, empty buffer with both indices at zero. -/
def example8 : ESP8266SoftwareSerial :=
  { bit_time_ := 8333, rx_mask_ := 8, tx_mask_ := 2, rx_buffer_ := [0, 0, 0, 0, 0, 0, 0, 0],
    rx_buffer_size_ := 8, rx_in_pos_ := 0, rx_out_pos_ := 0 }

/-- Frames carrying the bytes 1, 2, ..., 10 for `example8`. -/
def frames1to10 : List (Nat → Nat) :=
  [1, 2, 3, 4, 5, 6, 7, 8, 9, 10].map example8.samplesOf

/-- An example object whose indices are about to wrap: capacity 4, both indices at 3. -/
def example4 : ESP8266SoftwareSerial :=
  { bit_time_ := 694, rx_mask_ := 8, tx_mask_ := 2, rx_buffer_ := [7, 7, 7, 7],
    rx_buffer_size_ := 4, rx_in_pos_ := 3, rx_out_pos_ := 3 }

/-- A short interleaving of stores, reads, a peek and a flush. -/
def exampleOps : List RingOp :=
  [.gpio_intr_ (example8.samplesOf 0x41), .gpio_intr_ (example8.samplesOf 0x54), .read_byte,
   .peek_byte, .gpio_intr_ (example8.samplesOf 0x0D), .flush,
   .gpio_intr_ (example8.samplesOf 0x0A)]

/-- An object with the bit period of 9600 baud at 80 MHz. -/
def example9600 : ESP8266SoftwareSerial :=
  setup 80000000 [] (fresh 64) 1 3 9600

end ESP8266SoftwareSerial

/-- The platform as seen by a polling reader. `millis k` is the value returned by the
`k`-th call of `millis()`; `rx_frame k` tells whether a frame arrives on the receive pin
during the `k`-th `yield()`, and with which pin samples. -/
structure Platform where
  millis : Nat → Nat
  rx_frame : Nat → Option (Nat → Nat)

/-- A `UARTComponent` on the ESP8266 whose `hw_serial_` is `nullptr`, so that every member
function takes its software serial branch. -/
structure UARTComponent where
  tx_pin_ : Int
  rx_pin_ : Int
  baud_rate_ : Nat
  sw_serial_ : ESP8266SoftwareSerial
  deriving DecidableEq, Repr

namespace UARTComponent

/-- The constructor `UARTComponent::UARTComponent`: pins `rx = 3`, `tx = 1` select the
default hardware serial (no software channel, `none`); every other pair creates a new
`ESP8266SoftwareSerial`, whose buffer capacity is a parameter. -/
def create (capacity : Nat) (tx_pin rx_pin : Int) (baud_rate : Nat) : Option UARTComponent :=
  if rx_pin = 3 ∧ tx_pin = 1 then none
  else some { tx_pin_ := tx_pin, rx_pin_ := rx_pin, baud_rate_ := baud_rate,
              sw_serial_ := ESP8266SoftwareSerial.fresh capacity }

/-- Embedding of `UARTComponent::setup`, software serial branch. -/
def setup (F_CPU : Nat) (cells : List Nat) (u : UARTComponent) : UARTComponent :=
  { u with sw_serial_ :=
      ESP8266SoftwareSerial.setup F_CPU cells u.sw_serial_ u.tx_pin_ u.rx_pin_ u.baud_rate_ }

/-- Embedding of `UARTComponent::available`, software serial branch. -/
def available (u : UARTComponent) : Nat :=
  u.sw_serial_.available

/-- Embedding of `UARTComponent::flush`, software serial branch. -/
def flush (u : UARTComponent) : UARTComponent :=
  { u with sw_serial_ := u.sw_serial_.flush }

/-- Embedding of `UARTComponent::write_byte`, software serial branch: the frame driven on the
line. -/
def write_byte (u : UARTComponent) (data : Nat) : List (Bool × Nat) :=
  u.sw_serial_.write_byte data

/-- Embedding of `UARTComponent::write_array`: one frame per byte, in order. -/
def write_array (u : UARTComponent) (data : List Nat) : List (List (Bool × Nat)) :=
  data.map u.sw_serial_.write_byte

/-- Embedding of `UARTComponent::write_str`: one frame per byte up to the terminating zero. -/
def write_str (u : UARTComponent) (str : List Nat) : List (List (Bool × Nat)) :=
  (str.takeWhile (fun c => c ≠ 0)).map u.sw_serial_.write_byte

/-- What can happen to the object during the `k`-th `yield()`: if the receive interrupt is
attached (`setup` attaches it exactly when `rx_pin != -1`) and a frame arrives, the handler
runs once. -/
def yield_ (pf : Platform) (u : UARTComponent) (k : Nat) : UARTComponent :=
  if u.rx_pin_ ≠ -1 then
    match pf.rx_frame k with
    | some gpi => { u with sw_serial_ := (u.sw_serial_.gpio_intr_ gpi).state }
    | none => u
  else u

/-- The `uint32_t` difference `millis() - start_time` for the `k`-th reading of the clock. -/
def elapsed (pf : Platform) (start_time k : Nat) : Nat :=
  (pf.millis k % WORD + WORD - start_time % WORD) % WORD

/-- The polling loop of `check_read_timeout_`: `while (available() < len)`, giving up when
`millis() - start_time > 100`, else `yield()`. `k` counts the calls of `millis()` made so
far; `fuel` bounds the number of iterations and `none` means the bound was hit. The result
is the returned flag, the object and the new count of clock readings. -/
def check_read_timeout_loop (pf : Platform) (len start_time : Nat) :
    Nat → UARTComponent → Nat → Option (Bool × UARTComponent × Nat)
  | 0, u, k => if u.available < len then none else some (true, u, k)
  | fuel + 1, u, k =>
    if u.available < len then
      if 100 < elapsed pf start_time k then some (false, u, k + 1)
      else check_read_timeout_loop pf len start_time fuel (yield_ pf u k) (k + 1)
    else some (true, u, k)

/-- Embedding of `UARTComponent::check_read_timeout_` (ESP8266). -/
def check_read_timeout_ (pf : Platform) (fuel : Nat) (u : UARTComponent) (len : Nat)
    (k : Nat) : Option (Bool × UARTComponent × Nat) :=
  if u.available ≥ len then some (true, u, k)
  else
    let start_time := pf.millis k % WORD
    check_read_timeout_loop pf len start_time fuel u (k + 1)

/-- Outcome of a read call: the returned flag (`false` is the read timeout), the bytes
written to `data` (none when the call fails), the object and the count of clock readings
after the call. -/
structure ReadResult where
  ok : Bool
  data : List Nat
  uart : UARTComponent
  clock : Nat
  deriving DecidableEq, Repr

/-- Modelled from the spec: the default argument of `check_read_timeout_` is declared in
`uart_component.h`, which is not part of the sources at hand; the spec has the read calls
block until `n` bytes, by default 1, are available. -/
def default_len : Nat := 1

/-- Embedding of `UARTComponent::read_byte`, software serial branch. -/
def read_byte (pf : Platform) (fuel : Nat) (u : UARTComponent) (k : Nat) : Option ReadResult :=
  match check_read_timeout_ pf fuel u default_len k with
  | none => none
  | some (false, u1, k1) => some { ok := false, data := [], uart := u1, clock := k1 }
  | some (true, u1, k1) =>
    let r := u1.sw_serial_.read_byte
    some { ok := true, data := [r.1], uart := { u1 with sw_serial_ := r.2 }, clock := k1 }

/-- Embedding of `UARTComponent::peek_byte`, software serial branch. -/
def peek_byte (pf : Platform) (fuel : Nat) (u : UARTComponent) (k : Nat) : Option ReadResult :=
  match check_read_timeout_ pf fuel u default_len k with
  | none => none
  | some (false, u1, k1) => some { ok := false, data := [], uart := u1, clock := k1 }
  | some (true, u1, k1) =>
    let r := u1.sw_serial_.peek_byte
    some { ok := true, data := [r.1], uart := { u1 with sw_serial_ := r.2 }, clock := k1 }

/-- Embedding of `UARTComponent::read_array`, software serial branch. -/
def read_array (pf : Platform) (fuel : Nat) (u : UARTComponent) (len : Nat) (k : Nat) :
    Option ReadResult :=
  match check_read_timeout_ pf fuel u len k with
  | none => none
  | some (false, u1, k1) => some { ok := false, data := [], uart := u1, clock := k1 }
  | some (true, u1, k1) =>
    let r := ESP8266SoftwareSerial.read_bytes len u1.sw_serial_
    some { ok := true, data := r.1, uart := { u1 with sw_serial_ := r.2 }, clock := k1 }

/-- The public operations of the channel. -/
inductive Call where
  | write_byte (data : Nat)
  | write_array (data : List Nat)
  | write_str (str : List Nat)
  | read_byte
  | peek_byte
  | read_array (len : Nat)
  | flush

/-- One public call, started after `k` clock readings: the object and the count of clock
readings after it (`none` when a polling loop hit the iteration bound). The write calls do
not modify the object. -/
def call (pf : Platform) (fuel : Nat) (st : UARTComponent × Nat) : Call →
    Option (UARTComponent × Nat)
  | .write_byte _ => some st
  | .write_array _ => some st
  | .write_str _ => some st
  | .read_byte => (read_byte pf fuel st.1 st.2).map (fun r => (r.uart, r.clock))
  | .peek_byte => (peek_byte pf fuel st.1 st.2).map (fun r => (r.uart, r.clock))
  | .read_array len => (read_array pf fuel st.1 len st.2).map (fun r => (r.uart, r.clock))
  | .flush => some (st.1.flush, st.2)

/-- A sequence of public calls, one after the other. -/
def calls (pf : Platform) (fuel : Nat) : List Call → UARTComponent × Nat →
    Option (UARTComponent × Nat)
  | [], st => some st
  | c :: cs, st =>
    match call pf fuel st c with
    | some st1 => calls pf fuel cs st1
    | none => none

/-! ### Example platform and channels -/

/-- A platform whose clock advances by 30 ms between two readings and on which no frame
ever arrives. -/
def quietPlatform : Platform :=
  { millis := fun k => 30 * k, rx_frame := fun _ => none }

/-- A software channel holding the two unread bytes 0x41 and 0x54. -/
def exampleUart2 : UARTComponent :=
  { tx_pin_ := 1, rx_pin_ := 4, baud_rate_ := 115200,
    sw_serial_ := { bit_time_ := 694, rx_mask_ := 16, tx_mask_ := 2,
                    rx_buffer_ := [0x41, 0x54, 0, 0], rx_buffer_size_ := 4,
                    rx_in_pos_ := 2, rx_out_pos_ := 0 } }

/-- A software channel created with transmit pin 1 and no receive pin, after `setup`. -/
def noRxUart : UARTComponent :=
  setup 80000000 []
    { tx_pin_ := 1, rx_pin_ := -1, baud_rate_ := 9600,
      sw_serial_ := ESP8266SoftwareSerial.fresh 64 }

end UARTComponent

/-! ## Arithmetic of the buffer indices -/

namespace ESP8266SoftwareSerial

theorem toInt32_of_fits (i : Int) (h1 : -2147483648 ≤ i) (h2 : i < 2147483648) :
    toInt32 i = i := by
  unfold toInt32
  simp only
  split_ifs <;> omega

theorem add_mod_wrap (a d C : Nat) (ha : a < C) (hd : d < C) :
    (a + d) % C = if a + d < C then a + d else a + d - C := by
  split_ifs with h
  · exact Nat.mod_eq_of_lt h
  · have h1 : a + d = (a + d - C) + C := by omega
    rw [h1, Nat.add_mod_right]
    have h2 : a + d - C + C - C = a + d - C := by omega
    rw [h2]
    exact Nat.mod_eq_of_lt (by omega)

theorem available_of_bounds (s : ESP8266SoftwareSerial)
    (hfit : s.rx_buffer_size_ < 2 ^ 31)
    (hin : s.rx_in_pos_ < s.rx_buffer_size_) (hout : s.rx_out_pos_ < s.rx_buffer_size_) :
    s.available =
      if s.rx_out_pos_ ≤ s.rx_in_pos_ then s.rx_in_pos_ - s.rx_out_pos_
      else s.rx_in_pos_ + s.rx_buffer_size_ - s.rx_out_pos_ := by
  unfold available
  norm_num at hfit
  have e1 : toInt32 (s.rx_in_pos_ : Int) = s.rx_in_pos_ :=
    toInt32_of_fits _ (by omega) (by omega)
  have e2 : toInt32 (s.rx_out_pos_ : Int) = s.rx_out_pos_ :=
    toInt32_of_fits _ (by omega) (by omega)
  have e3 : toInt32 ((s.rx_in_pos_ : Int) - (s.rx_out_pos_ : Int))
      = (s.rx_in_pos_ : Int) - (s.rx_out_pos_ : Int) :=
    toInt32_of_fits _ (by omega) (by omega)
  simp only [e1, e2, e3]
  norm_num
  split_ifs <;> omega

/-! ## The handler as a buffer store -/

theorem gpio_intr_state (s : ESP8266SoftwareSerial) (gpi : Nat → Nat) :
    (s.gpio_intr_ gpi).state =
      { s with rx_buffer_ := s.rx_buffer_.set s.rx_in_pos_ (s.gpio_intr_ gpi).received,
               rx_in_pos_ := ((s.rx_in_pos_ + 1) % WORD) % s.rx_buffer_size_ } := rfl

theorem gpio_intr_received_congr (s s' : ESP8266SoftwareSerial) (gpi : Nat → Nat)
    (h : s.rx_mask_ = s'.rx_mask_) :
    (s.gpio_intr_ gpi).received = (s'.gpio_intr_ gpi).received := by
  simp only [gpio_intr_, read_bit_, h]

theorem receive_snoc (s : ESP8266SoftwareSerial) (frames : List (Nat → Nat)) (gpi : Nat → Nat) :
    s.receive (frames ++ [gpi]) = ((s.receive frames).gpio_intr_ gpi).state := by
  simp [receive, List.foldl_append]

theorem mod_ne_of_lt_of_lt (a i n C : Nat) (hi : i < n) (hn : n < i + C) :
    (a + i) % C ≠ (a + n) % C := by
  intro h
  have h1 : i ≡ n [MOD C] := Nat.ModEq.add_left_cancel' a h
  have h2 : C ∣ n - i := (Nat.modEq_iff_dvd' hi.le).1 h1
  have h3 : C ≤ n - i := Nat.le_of_dvd (by omega) h2
  omega

/-- After the handler has run on `frames`, starting with the write index at `p`: the write
index has advanced by the number of frames modulo the capacity, nothing else but the buffer
changed, and the cell `(p + i) % C` holds the `i`-th byte for each of the last `C` frames. -/
theorem receive_spec (s : ESP8266SoftwareSerial) (frames : List (Nat → Nat))
    (hfit : s.rx_buffer_size_ < 2 ^ 31) (hin : s.rx_in_pos_ < s.rx_buffer_size_)
    (hlen : s.rx_buffer_.length = s.rx_buffer_size_) :
    (s.receive frames).rx_in_pos_ = (s.rx_in_pos_ + frames.length) % s.rx_buffer_size_ ∧
    (s.receive frames).rx_out_pos_ = s.rx_out_pos_ ∧
    (s.receive frames).rx_buffer_size_ = s.rx_buffer_size_ ∧
    (s.receive frames).rx_mask_ = s.rx_mask_ ∧
    (s.receive frames).rx_buffer_.length = s.rx_buffer_size_ ∧
    ∀ i, i < frames.length → frames.length < i + s.rx_buffer_size_ + 1 →
      (s.receive frames).rx_buffer_.getD ((s.rx_in_pos_ + i) % s.rx_buffer_size_) 0
        = (s.received frames).getD i 0 := by
  induction frames using List.reverseRecOn with
  | nil =>
    refine ⟨?_, rfl, rfl, rfl, hlen, ?_⟩
    · simp [receive, Nat.mod_eq_of_lt hin]
    · intro i hi; simp at hi
  | append_singleton fs g ih =>
    obtain ⟨h1, h2, h3, h4, h5, h6⟩ := ih
    have hC : 0 < s.rx_buffer_size_ := by omega
    have hlt : (s.receive fs).rx_in_pos_ < s.rx_buffer_size_ := by
      rw [h1]; exact Nat.mod_lt _ hC
    have hw : ((s.receive fs).rx_in_pos_ + 1) % WORD = (s.receive fs).rx_in_pos_ + 1 := by
      apply Nat.mod_eq_of_lt
      unfold WORD
      norm_num at hfit ⊢
      omega
    rw [receive_snoc, gpio_intr_state]
    simp only [List.length_append, List.length_singleton, List.length_set]
    refine ⟨?_, h2, h3, h4, h5, ?_⟩
    · rw [hw, h3, h1, Nat.mod_add_mod, Nat.add_assoc]
    · intro i hi hn
      have hrec : (s.received (fs ++ [g])) = s.received fs ++ [(s.gpio_intr_ g).received] := by
        simp [received]
      have hlenr : (s.received fs).length = fs.length := by simp [received]
      rw [hrec, gpio_intr_received_congr (s.receive fs) s g h4]
      by_cases hlast : i = fs.length
      · subst hlast
        rw [h1]
        rw [List.getD_eq_getElem?_getD, List.getD_eq_getElem?_getD]
        rw [List.getElem?_set_self (by rw [h5]; exact Nat.mod_lt _ hC)]
        rw [List.getElem?_append_right (by omega)]
        simp [hlenr]
      · have hi' : i < fs.length := by omega
        have hne : (s.rx_in_pos_ + i) % s.rx_buffer_size_ ≠ (s.receive fs).rx_in_pos_ := by
          rw [h1]
          exact mod_ne_of_lt_of_lt _ _ _ _ hi' (by omega)
        rw [List.getD_eq_getElem?_getD, List.getD_eq_getElem?_getD]
        rw [List.getElem?_set_ne (Ne.symm hne)]
        rw [List.getElem?_append_left (by omega)]
        rw [← List.getD_eq_getElem?_getD, ← List.getD_eq_getElem?_getD]
        exact h6 i hi' (by omega)

/-! ## Consumer reads -/

theorem read_byte_of_ne (s : ESP8266SoftwareSerial) (h : s.rx_in_pos_ ≠ s.rx_out_pos_)
    (hfit : s.rx_buffer_size_ < 2 ^ 31) (hout : s.rx_out_pos_ < s.rx_buffer_size_) :
    s.read_byte = (s.rx_buffer_.getD s.rx_out_pos_ 0,
      { s with rx_out_pos_ := (s.rx_out_pos_ + 1) % s.rx_buffer_size_ }) := by
  have hw : (s.rx_out_pos_ + 1) % WORD = s.rx_out_pos_ + 1 := by
    apply Nat.mod_eq_of_lt
    unfold WORD
    norm_num at hfit ⊢
    omega
  simp [read_byte, h, hw]

/-- Reading `m` bytes when at least `m` are buffered returns the cells from the read index
on, in cyclic order, and advances the read index by `m` modulo the capacity. -/
theorem read_bytes_spec (m : Nat) : ∀ (s : ESP8266SoftwareSerial) (d : Nat),
    s.rx_buffer_size_ < 2 ^ 31 → s.rx_out_pos_ < s.rx_buffer_size_ →
    s.rx_in_pos_ = (s.rx_out_pos_ + d) % s.rx_buffer_size_ → m ≤ d → d < s.rx_buffer_size_ →
    read_bytes m s =
      ((List.range m).map
          (fun i => s.rx_buffer_.getD ((s.rx_out_pos_ + i) % s.rx_buffer_size_) 0),
       { s with rx_out_pos_ := (s.rx_out_pos_ + m) % s.rx_buffer_size_ }) := by
  induction m with
  | zero =>
    intro s d _ hout _ _ _
    simp [read_bytes, Nat.mod_eq_of_lt hout]
  | succ m ih =>
    intro s d hfit hout hin hm hd
    have hne : s.rx_in_pos_ ≠ s.rx_out_pos_ := by
      rw [hin, add_mod_wrap _ _ _ hout hd]
      split_ifs <;> omega
    have hC : 0 < s.rx_buffer_size_ := by omega
    have hr := read_byte_of_ne s hne hfit hout
    have ih' := ih { s with rx_out_pos_ := (s.rx_out_pos_ + 1) % s.rx_buffer_size_ } (d - 1)
      hfit (Nat.mod_lt _ hC)
      (by
        show s.rx_in_pos_ = ((s.rx_out_pos_ + 1) % s.rx_buffer_size_ + (d - 1)) % s.rx_buffer_size_
        rw [hin, Nat.mod_add_mod]
        congr 1
        omega)
      (by omega) (by show d - 1 < s.rx_buffer_size_; omega)
    simp only [read_bytes, hr, ih']
    refine Prod.ext ?_ ?_
    · simp only [List.range_succ_eq_map, List.map_cons, List.map_map]
      simp only [Nat.add_zero, Nat.mod_eq_of_lt hout, List.cons.injEq, true_and]
      apply List.map_congr_left
      intro i _
      simp only [Function.comp, Nat.mod_add_mod]
      congr 2
      omega
    · simp only [Nat.mod_add_mod]
      congr 2
      omega

theorem available_of_offset (s : ESP8266SoftwareSerial) (d : Nat)
    (hfit : s.rx_buffer_size_ < 2 ^ 31) (hout : s.rx_out_pos_ < s.rx_buffer_size_)
    (hin : s.rx_in_pos_ = (s.rx_out_pos_ + d) % s.rx_buffer_size_)
    (hd : d < s.rx_buffer_size_) :
    s.available = d := by
  have hlt : s.rx_in_pos_ < s.rx_buffer_size_ := by
    rw [hin]; exact Nat.mod_lt _ (by omega)
  rw [available_of_bounds s hfit hlt hout, hin, add_mod_wrap _ _ _ hout hd]
  split_ifs <;> omega

theorem offset_of_bounds (s : ESP8266SoftwareSerial)
    (hfit : s.rx_buffer_size_ < 2 ^ 31)
    (hin : s.rx_in_pos_ < s.rx_buffer_size_) (hout : s.rx_out_pos_ < s.rx_buffer_size_) :
    s.rx_in_pos_ = (s.rx_out_pos_ + s.available) % s.rx_buffer_size_ ∧
      s.available < s.rx_buffer_size_ := by
  rw [available_of_bounds s hfit hin hout]
  split_ifs with h
  · refine ⟨?_, by omega⟩
    rw [Nat.mod_eq_of_lt (by omega)]
    omega
  · refine ⟨?_, by omega⟩
    rw [add_mod_wrap _ _ _ hout (by omega)]
    split_ifs <;> omega

/-- With the indices in range, draining performs exactly `available()` reads. -/
theorem drain_eq_read_bytes (fuel : Nat) : ∀ (s : ESP8266SoftwareSerial),
    s.rx_buffer_size_ < 2 ^ 31 → s.rx_in_pos_ < s.rx_buffer_size_ →
    s.rx_out_pos_ < s.rx_buffer_size_ → s.available ≤ fuel →
    drain fuel s = some (read_bytes s.available s) := by
  induction fuel with
  | zero =>
    intro s _ _ _ hav
    have h0 : s.available = 0 := by omega
    rw [h0]
    simp [drain, h0, read_bytes]
  | succ fuel ih =>
    intro s hfit hin hout hav
    by_cases h0 : s.available = 0
    · rw [h0]
      simp [drain, h0, read_bytes]
    · obtain ⟨hoff, hdC⟩ := offset_of_bounds s hfit hin hout
      have hC : 0 < s.rx_buffer_size_ := by omega
      have hne : s.rx_in_pos_ ≠ s.rx_out_pos_ := by
        intro h
        apply h0
        rw [available_of_bounds s hfit hin hout]
        simp [h]
      have hr := read_byte_of_ne s hne hfit hout
      have hav' : ({ s with rx_out_pos_ := (s.rx_out_pos_ + 1) % s.rx_buffer_size_ } :
          ESP8266SoftwareSerial).available = s.available - 1 := by
        apply available_of_offset
          { s with rx_out_pos_ := (s.rx_out_pos_ + 1) % s.rx_buffer_size_ } (s.available - 1)
          hfit (Nat.mod_lt _ hC)
        · show s.rx_in_pos_
            = ((s.rx_out_pos_ + 1) % s.rx_buffer_size_ + (s.available - 1)) % s.rx_buffer_size_
          rw [Nat.mod_add_mod]
          have : s.rx_out_pos_ + 1 + (s.available - 1) = s.rx_out_pos_ + s.available := by omega
          rw [this]
          exact hoff
        · show s.available - 1 < s.rx_buffer_size_
          omega
      have ih' := ih { s with rx_out_pos_ := (s.rx_out_pos_ + 1) % s.rx_buffer_size_ }
        hfit hin (Nat.mod_lt _ hC) (by rw [hav']; omega)
      have hpos : 0 < s.available := by omega
      obtain ⟨k, hk⟩ : ∃ k, s.available = k + 1 := ⟨s.available - 1, by omega⟩
      rw [hav'] at ih'
      simp only [drain, hpos, if_true, hr, ih']
      rw [hk]
      simp [read_bytes, hr]

end ESP8266SoftwareSerial

end esphomelib

namespace esphomelib

namespace ESP8266SoftwareSerial

/-! ## Claims about the ring buffer -/

/-- C1, as stated, fails: with capacity 8 and the bytes 1, 2, ..., 10 stored with no read in
between, draining the buffer yields 9, 10 and not 3, 4, ..., 10. -/
theorem drain_after_overflow_counterexample :
    example8.received frames1to10 = [1, 2, 3, 4, 5, 6, 7, 8, 9, 10] ∧
    (drain 10 (example8.receive frames1to10)).map Prod.fst = some [9, 10] ∧
    (drain 10 (example8.receive frames1to10)).map Prod.fst ≠ some [3, 4, 5, 6, 7, 8, 9, 10] := by
  decide

/-- The bytes read back after the handler stored `frames` into a buffer that was empty at
position `p`: reading `frames.length % C` bytes returns the last `frames.length % C` bytes
stored, and the buffer is empty afterwards. -/
theorem read_back_after_receive (s : ESP8266SoftwareSerial) (frames : List (Nat → Nat))
    (hfit : s.rx_buffer_size_ < 2 ^ 31)
    (hlen : s.rx_buffer_.length = s.rx_buffer_size_)
    (hp : s.rx_out_pos_ < s.rx_buffer_size_)
    (hempty : s.rx_in_pos_ = s.rx_out_pos_) :
    (s.receive frames).available = frames.length % s.rx_buffer_size_ ∧
    (read_bytes (frames.length % s.rx_buffer_size_) (s.receive frames)).1
      = (s.received frames).drop (frames.length - frames.length % s.rx_buffer_size_) ∧
    (read_bytes (frames.length % s.rx_buffer_size_) (s.receive frames)).2.available = 0 ∧
    (s.receive frames).rx_in_pos_ < s.rx_buffer_size_ ∧
    (s.receive frames).rx_out_pos_ < s.rx_buffer_size_ ∧
    (s.receive frames).rx_buffer_size_ = s.rx_buffer_size_ := by
  have hC : 0 < s.rx_buffer_size_ := by omega
  obtain ⟨h1, h2, h3, _, _, h6⟩ := receive_spec s frames hfit (hempty ▸ hp) hlen
  have hm : frames.length % s.rx_buffer_size_ < s.rx_buffer_size_ := Nat.mod_lt _ hC
  have hin' : (s.receive frames).rx_in_pos_
      = ((s.receive frames).rx_out_pos_ + frames.length % s.rx_buffer_size_)
          % (s.receive frames).rx_buffer_size_ := by
    rw [h1, h2, h3, hempty, Nat.add_mod_mod]
  have hout' : (s.receive frames).rx_out_pos_ < (s.receive frames).rx_buffer_size_ := by
    rw [h2, h3]; exact hp
  have hfit' : (s.receive frames).rx_buffer_size_ < 2 ^ 31 := by rw [h3]; exact hfit
  have hrd := read_bytes_spec (frames.length % s.rx_buffer_size_) (s.receive frames)
    (frames.length % s.rx_buffer_size_) hfit' hout' hin' le_rfl (by rw [h3]; exact hm)
  have hlenr : (s.received frames).length = frames.length := by simp [received]
  have hsplit : frames.length
      = frames.length % s.rx_buffer_size_ + s.rx_buffer_size_ * (frames.length / s.rx_buffer_size_) :=
    (Nat.mod_add_div _ _).symm
  have hle : frames.length % s.rx_buffer_size_ ≤ frames.length := Nat.mod_le _ _
  refine ⟨?_, ?_, ?_, ?_, ?_, h3⟩
  · exact available_of_offset _ _ hfit' hout' hin' (by rw [h3]; exact hm)
  · rw [hrd]
    apply List.ext_getElem
    · simp [hlenr]
      omega
    · intro i hi1 hi2
      simp only [List.length_map, List.length_range] at hi1
      simp only [List.getElem_map, List.getElem_range, List.getElem_drop]
      have hidx : frames.length - frames.length % s.rx_buffer_size_ + i < frames.length := by
        omega
      have key := h6 (frames.length - frames.length % s.rx_buffer_size_ + i) hidx (by omega)
      have hpos : (s.rx_in_pos_ + (frames.length - frames.length % s.rx_buffer_size_ + i))
            % s.rx_buffer_size_
          = ((s.receive frames).rx_out_pos_ + i) % (s.receive frames).rx_buffer_size_ := by
        rw [h2, h3, hempty]
        have e : s.rx_out_pos_ + (frames.length - frames.length % s.rx_buffer_size_ + i)
            = (s.rx_out_pos_ + i) + s.rx_buffer_size_ * (frames.length / s.rx_buffer_size_) := by
          omega
        rw [e, Nat.add_mul_mod_self_left]
      rw [hpos] at key
      rw [key, List.getD_eq_getElem?_getD, List.getElem?_eq_getElem (by rw [hlenr]; exact hidx)]
      rfl
  · rw [hrd]
    have hC' : 0 < (s.receive frames).rx_buffer_size_ := by rw [h3]; exact hC
    exact available_of_offset
      { s.receive frames with
        rx_out_pos_ := ((s.receive frames).rx_out_pos_ + frames.length % s.rx_buffer_size_)
          % (s.receive frames).rx_buffer_size_ }
      0 hfit' (Nat.mod_lt _ hC')
      (by
        show (s.receive frames).rx_in_pos_ = _
        rw [Nat.add_zero, Nat.mod_mod]
        exact hin')
      hC'
  · rw [h1]; exact Nat.mod_lt _ hC
  · rw [h2]; exact hp

/-- C1, amended: for a ring buffer of capacity `C` that is empty (both indices equal, at any
position), after the receive handler stored `n` bytes in order with no read in between,
draining the buffer (calling `read_byte` while `available() > 0`) terminates and yields
exactly the last `n % C` bytes stored, in the order stored; the buffer is empty afterwards.
The capacity is assumed to fit a 32 bit `int`, as `available` converts the indices. -/
theorem drain_after_receive (s : ESP8266SoftwareSerial) (frames : List (Nat → Nat))
    (fuel : Nat)
    (hfit : s.rx_buffer_size_ < 2 ^ 31)
    (hlen : s.rx_buffer_.length = s.rx_buffer_size_)
    (hp : s.rx_out_pos_ < s.rx_buffer_size_)
    (hempty : s.rx_in_pos_ = s.rx_out_pos_)
    (hfuel : frames.length % s.rx_buffer_size_ ≤ fuel) :
    ∃ s', drain fuel (s.receive frames)
        = some ((s.received frames).drop (frames.length - frames.length % s.rx_buffer_size_), s')
      ∧ s'.available = 0 := by
  obtain ⟨hav, hdata, hzero, hin, hout, hsz⟩ := read_back_after_receive s frames hfit hlen hp hempty
  have hd := drain_eq_read_bytes fuel (s.receive frames) (by rw [hsz]; exact hfit)
    (by rw [hsz]; exact hin) (by rw [hsz]; exact hout) (by rw [hav]; exact hfuel)
  rw [hav] at hd
  refine ⟨(read_bytes (frames.length % s.rx_buffer_size_) (s.receive frames)).2, ?_, hzero⟩
  rw [hd, ← hdata]

/-- Witness for `drain_after_receive`: capacity 8, the bytes 1, ..., 10. -/
theorem drain_after_receive_witness :
    example8.rx_buffer_size_ < 2 ^ 31 ∧
    ∃ s', drain 2 (example8.receive frames1to10)
        = some ((example8.received frames1to10).drop
            (frames1to10.length - frames1to10.length % example8.rx_buffer_size_), s')
      ∧ s'.available = 0 :=
  ⟨by decide, drain_after_receive example8 frames1to10 2 (by decide) (by decide) (by decide)
    (by decide) (by decide)⟩

/-- C6: for a ring buffer of capacity `C` that is empty with both indices at any position
`p < C`, after the receive handler stored `k < C` bytes with no read in between,
`available()` returns `k`, `k` successive `read_byte` calls return exactly those bytes in
the order stored, and afterwards `available()` returns 0. The capacity is assumed to fit a
32 bit `int`, as `available` converts the indices. -/
theorem fifo_without_overflow (s : ESP8266SoftwareSerial) (frames : List (Nat → Nat))
    (hfit : s.rx_buffer_size_ < 2 ^ 31)
    (hlen : s.rx_buffer_.length = s.rx_buffer_size_)
    (hp : s.rx_out_pos_ < s.rx_buffer_size_)
    (hempty : s.rx_in_pos_ = s.rx_out_pos_)
    (hk : frames.length < s.rx_buffer_size_) :
    (s.receive frames).available = frames.length ∧
    (read_bytes frames.length (s.receive frames)).1 = s.received frames ∧
    (read_bytes frames.length (s.receive frames)).2.available = 0 := by
  obtain ⟨hav, hdata, hzero, _, _, _⟩ := read_back_after_receive s frames hfit hlen hp hempty
  rw [Nat.mod_eq_of_lt hk] at hav hdata hzero
  refine ⟨hav, ?_, hzero⟩
  rw [hdata, Nat.sub_self, List.drop_zero]

/-- Witness for `fifo_without_overflow`: three bytes stored across the wrap-around. -/
theorem fifo_without_overflow_witness :
    example4.rx_buffer_size_ < 2 ^ 31 ∧
    [0x41, 0x54, 0x0D].length < example4.rx_buffer_size_ ∧
    example4.received ([0x41, 0x54, 0x0D].map example4.samplesOf) = [0x41, 0x54, 0x0D] ∧
    (example4.receive ([0x41, 0x54, 0x0D].map example4.samplesOf)).available
      = ([0x41, 0x54, 0x0D].map example4.samplesOf).length ∧
    (read_bytes ([0x41, 0x54, 0x0D].map example4.samplesOf).length
        (example4.receive ([0x41, 0x54, 0x0D].map example4.samplesOf))).1
      = example4.received ([0x41, 0x54, 0x0D].map example4.samplesOf) ∧
    (read_bytes ([0x41, 0x54, 0x0D].map example4.samplesOf).length
        (example4.receive ([0x41, 0x54, 0x0D].map example4.samplesOf))).2.available = 0 :=
  ⟨by decide, by decide, by decide,
    fifo_without_overflow example4 ([0x41, 0x54, 0x0D].map example4.samplesOf)
      (by decide) (by decide) (by decide) (by decide) (by decide)⟩

/-- C8: reading an empty ring buffer is not an error. In every state in which the read index
equals the write index, `read_byte` and `peek_byte` each return the value 0 and leave the
object (both indices and the buffer contents) unchanged. -/
theorem read_empty_returns_zero (s : ESP8266SoftwareSerial)
    (h : s.rx_in_pos_ = s.rx_out_pos_) :
    s.read_byte = (0, s) ∧ s.peek_byte = (0, s) := by
  simp [read_byte, peek_byte, h]

/-- Witness for `read_empty_returns_zero`: an empty buffer whose cells hold stale bytes. -/
theorem read_empty_returns_zero_witness :
    example4.rx_in_pos_ = example4.rx_out_pos_ ∧
    example4.read_byte = (0, example4) ∧ example4.peek_byte = (0, example4) :=
  ⟨by decide, read_empty_returns_zero example4 (by decide)⟩

/-- The bounds that every buffer operation preserves. -/
theorem step_bounds (s : ESP8266SoftwareSerial) (op : RingOp)
    (hC : 0 < s.rx_buffer_size_)
    (hin : s.rx_in_pos_ < s.rx_buffer_size_) (hout : s.rx_out_pos_ < s.rx_buffer_size_)
    (hlen : s.rx_buffer_.length = s.rx_buffer_size_) :
    (s.step op).rx_buffer_size_ = s.rx_buffer_size_ ∧
    (s.step op).rx_in_pos_ < s.rx_buffer_size_ ∧
    (s.step op).rx_out_pos_ < s.rx_buffer_size_ ∧
    (s.step op).rx_buffer_.length = s.rx_buffer_size_ := by
  cases op with
  | gpio_intr_ gpi =>
    rw [step, gpio_intr_state]
    exact ⟨rfl, Nat.mod_lt _ hC, hout, by rw [List.length_set]; exact hlen⟩
  | read_byte =>
    simp only [step, read_byte]
    split_ifs
    · exact ⟨rfl, hin, hout, hlen⟩
    · exact ⟨rfl, hin, Nat.mod_lt _ hC, hlen⟩
  | peek_byte =>
    simp only [step, peek_byte]
    split_ifs <;> exact ⟨rfl, hin, hout, hlen⟩
  | flush =>
    rw [step, flush]
    exact ⟨rfl, hC, hC, hlen⟩

theorem run_bounds (ops : List RingOp) : ∀ (s : ESP8266SoftwareSerial),
    0 < s.rx_buffer_size_ →
    s.rx_in_pos_ < s.rx_buffer_size_ → s.rx_out_pos_ < s.rx_buffer_size_ →
    s.rx_buffer_.length = s.rx_buffer_size_ →
    (s.run ops).rx_buffer_size_ = s.rx_buffer_size_ ∧
    (s.run ops).rx_in_pos_ < s.rx_buffer_size_ ∧
    (s.run ops).rx_out_pos_ < s.rx_buffer_size_ ∧
    (s.run ops).rx_buffer_.length = s.rx_buffer_size_ := by
  induction ops with
  | nil => intro s _ hin hout hlen; exact ⟨rfl, hin, hout, hlen⟩
  | cons op ops ih =>
    intro s hC hin hout hlen
    obtain ⟨h1, h2, h3, h4⟩ := step_bounds s op hC hin hout hlen
    have := ih (s.step op) (by rw [h1]; exact hC) (by rw [h1]; exact h2) (by rw [h1]; exact h3)
      (by rw [h1]; exact h4)
    rw [h1] at this
    exact this

theorem available_eq_emod (s : ESP8266SoftwareSerial)
    (hfit : s.rx_buffer_size_ < 2 ^ 31)
    (hin : s.rx_in_pos_ < s.rx_buffer_size_) (hout : s.rx_out_pos_ < s.rx_buffer_size_) :
    (s.available : Int)
      = ((s.rx_in_pos_ : Int) - (s.rx_out_pos_ : Int)) % (s.rx_buffer_size_ : Int) := by
  rw [available_of_bounds s hfit hin hout]
  split_ifs with h
  · rw [Int.emod_eq_of_lt (by omega) (by omega)]
    omega
  · have e : (s.rx_in_pos_ : Int) - (s.rx_out_pos_ : Int)
        = ((s.rx_in_pos_ : Int) - (s.rx_out_pos_ : Int) + (s.rx_buffer_size_ : Int))
          + (-1) * (s.rx_buffer_size_ : Int) := by ring
    rw [e, Int.add_mul_emod_self, Int.emod_eq_of_lt (by omega) (by omega)]
    omega

/-- C10: index invariant. For a ring buffer with capacity `rx_buffer_size_ > 0`, allocated
with that many cells, whose indices start at 0: in every state reached by any interleaving
of `gpio_intr_` (store), `read_byte`, `peek_byte` and `flush`, the capacity is unchanged,
both `rx_in_pos_` and `rx_out_pos_` are strictly less than it and than the length of the
buffer, so that every buffer access is in bounds; and, the capacity fitting a 32 bit `int`,
`available()` equals `(rx_in_pos_ - rx_out_pos_) mod rx_buffer_size_` and is strictly less
than the capacity. -/
theorem index_invariant (s : ESP8266SoftwareSerial) (ops : List RingOp)
    (hC : 0 < s.rx_buffer_size_)
    (hin : s.rx_in_pos_ = 0) (hout : s.rx_out_pos_ = 0)
    (hlen : s.rx_buffer_.length = s.rx_buffer_size_) :
    (s.run ops).rx_buffer_size_ = s.rx_buffer_size_ ∧
    (s.run ops).rx_in_pos_ < (s.run ops).rx_buffer_size_ ∧
    (s.run ops).rx_out_pos_ < (s.run ops).rx_buffer_size_ ∧
    (s.run ops).rx_in_pos_ < (s.run ops).rx_buffer_.length ∧
    (s.run ops).rx_out_pos_ < (s.run ops).rx_buffer_.length ∧
    (s.rx_buffer_size_ < 2 ^ 31 →
      ((s.run ops).available : Int)
        = (((s.run ops).rx_in_pos_ : Int) - ((s.run ops).rx_out_pos_ : Int))
            % ((s.run ops).rx_buffer_size_ : Int) ∧
      (s.run ops).available < (s.run ops).rx_buffer_size_) := by
  obtain ⟨h1, h2, h3, h4⟩ := run_bounds ops s hC (by rw [hin]; exact hC) (by rw [hout]; exact hC)
    hlen
  refine ⟨h1, by rw [h1]; exact h2, by rw [h1]; exact h3, by rw [h4]; exact h2,
    by rw [h4]; exact h3, ?_⟩
  intro hfit
  have hfit' : (s.run ops).rx_buffer_size_ < 2 ^ 31 := by rw [h1]; exact hfit
  have h2' : (s.run ops).rx_in_pos_ < (s.run ops).rx_buffer_size_ := by rw [h1]; exact h2
  have h3' : (s.run ops).rx_out_pos_ < (s.run ops).rx_buffer_size_ := by rw [h1]; exact h3
  exact ⟨available_eq_emod _ hfit' h2' h3', (offset_of_bounds _ hfit' h2' h3').2⟩

/-- Witness for `index_invariant` on `example8` and `exampleOps`. -/
theorem index_invariant_witness :
    0 < example8.rx_buffer_size_ ∧ example8.rx_buffer_size_ < 2 ^ 31 ∧
    (example8.run exampleOps).rx_in_pos_ < (example8.run exampleOps).rx_buffer_.length ∧
    (example8.run exampleOps).available < (example8.run exampleOps).rx_buffer_size_ :=
  ⟨by decide, by decide,
    (index_invariant example8 exampleOps (by decide) (by decide) (by decide) (by decide)).2.2.2.1,
    ((index_invariant example8 exampleOps (by decide) (by decide) (by decide)
      (by decide)).2.2.2.2.2 (by decide)).2⟩

end ESP8266SoftwareSerial

/-! ## Claims about the channel -/

namespace UARTComponent

theorem sw_available_of_eq (s : ESP8266SoftwareSerial) (h : s.rx_in_pos_ = s.rx_out_pos_) :
    s.available = 0 := by
  simp [ESP8266SoftwareSerial.available, h, toInt32]

/-- The polling loop on an object that no interrupt changes and that holds fewer than `len`
bytes: it returns `false` at the first clock reading `t` that is more than 100 ms past
`start_time`, provided the iteration bound allows `t - c + 1` iterations, and hits the
bound otherwise. -/
theorem loop_timeout (pf : Platform) (u : UARTComponent) (len start_time t : Nat)
    (hav : u.available < len) (ht : 100 < elapsed pf start_time t) :
    ∀ (fuel c : Nat), c ≤ t →
      (∀ i, c ≤ i → i < t → elapsed pf start_time i ≤ 100) →
      (∀ i, c ≤ i → i < t → yield_ pf u i = u) →
      (t - c < fuel → check_read_timeout_loop pf len start_time fuel u c = some (false, u, t + 1)) ∧
      (fuel ≤ t - c → check_read_timeout_loop pf len start_time fuel u c = none) := by
  intro fuel
  induction fuel with
  | zero =>
    intro c _ _ _
    refine ⟨fun h => absurd h (Nat.not_lt_zero _), fun _ => ?_⟩
    simp [check_read_timeout_loop, hav]
  | succ fuel ih =>
    intro c hc hlow hquiet
    by_cases hct : c = t
    · subst hct
      refine ⟨fun _ => ?_, fun h => ?_⟩
      · simp [check_read_timeout_loop, hav, ht]
      · omega
    · have hlt : c < t := by omega
      have hnot : ¬ 100 < elapsed pf start_time c := by
        have := hlow c le_rfl hlt
        omega
      obtain ⟨ih1, ih2⟩ := ih (c + 1) hlt
        (fun i hi1 hi2 => hlow i (by omega) hi2) (fun i hi1 hi2 => hquiet i (by omega) hi2)
      have hstep : check_read_timeout_loop pf len start_time (fuel + 1) u c
          = check_read_timeout_loop pf len start_time fuel u (c + 1) := by
        simp [check_read_timeout_loop, hav, hnot, hquiet c le_rfl hlt]
      rw [hstep]
      exact ⟨fun h => ih1 (by omega), fun h => ih2 (by omega)⟩

/-- The timeout of `check_read_timeout_`: when fewer than `len` bytes are buffered, no
interrupt changes the object and some later clock reading `j` is more than 100 ms past the
reading `k` taken at the start of the wait, the call returns `false` with the object
unchanged at the first such reading `t`, given an iteration bound of at least `t - k`. -/
theorem check_read_timeout_fails (pf : Platform) (u : UARTComponent) (len k j : Nat)
    (hav : u.available < len) (hj : k < j)
    (hquiet : ∀ i, k < i → i < j → yield_ pf u i = u)
    (hclock : 100 < elapsed pf (pf.millis k) j) :
    ∃ t, k < t ∧ t ≤ j ∧ 100 < elapsed pf (pf.millis k) t ∧
      (∀ i, k < i → i < t → elapsed pf (pf.millis k) i ≤ 100) ∧
      (∀ fuel, t - k ≤ fuel →
        check_read_timeout_ pf fuel u len k = some (false, u, t + 1)) ∧
      (∀ fuel, fuel < t - k → check_read_timeout_ pf fuel u len k = none) := by
  classical
  have hex : ∃ t, k < t ∧ 100 < elapsed pf (pf.millis k) t := ⟨j, hj, hclock⟩
  have hspec := Nat.find_spec hex
  have hle : Nat.find hex ≤ j := Nat.find_min' hex ⟨hj, hclock⟩
  have hmin : ∀ i, k < i → i < Nat.find hex → elapsed pf (pf.millis k) i ≤ 100 := by
    intro i hi1 hi2
    have := Nat.find_min hex hi2
    by_contra hcon
    exact this ⟨hi1, by omega⟩
  have hst : ∀ i, elapsed pf (pf.millis k % WORD) i = elapsed pf (pf.millis k) i := by
    intro i
    simp [elapsed, Nat.mod_mod]
  have hloop := loop_timeout pf u len (pf.millis k % WORD) (Nat.find hex) hav
    (by rw [hst]; exact hspec.2)
  refine ⟨Nat.find hex, hspec.1, hle, hspec.2, hmin, ?_, ?_⟩
  · intro fuel hfuel
    have h := (hloop fuel (k + 1) hspec.1
      (fun i hi1 hi2 => by rw [hst]; exact hmin i (by omega) hi2)
      (fun i hi1 hi2 => hquiet i (by omega) (by omega))).1 (by omega)
    simp [check_read_timeout_, Nat.not_le.mpr hav, h]
  · intro fuel hfuel
    have h := (hloop fuel (k + 1) hspec.1
      (fun i hi1 hi2 => by rw [hst]; exact hmin i (by omega) hi2)
      (fun i hi1 hi2 => hquiet i (by omega) (by omega))).2 (by omega)
    simp [check_read_timeout_, Nat.not_le.mpr hav, h]


/-- C3: all-or-nothing read. For every `n` and every state of the software channel with
`available() < n` in which no byte is received during the call, `read_array(data, n)`
fails (returns `false`, the read timeout) and leaves the object unchanged (read index,
write index and buffer contents), and it returns only at the first reading `t` of the
millisecond clock that lies more than 100 ms after the reading taken at the start of the
wait. The clock is assumed to get there: some reading `j` is more than 100 ms past the
start. With an iteration bound below `t - k` the loop is still polling. -/
theorem read_array_timeout (pf : Platform) (u : UARTComponent) (n k j : Nat)
    (hav : u.available < n) (hj : k < j)
    (hquiet : ∀ i, k < i → i < j → pf.rx_frame i = none)
    (hclock : 100 < elapsed pf (pf.millis k) j) :
    ∃ t, k < t ∧ t ≤ j ∧ 100 < elapsed pf (pf.millis k) t ∧
      (∀ i, k < i → i < t → elapsed pf (pf.millis k) i ≤ 100) ∧
      (∀ fuel, t - k ≤ fuel →
        read_array pf fuel u n k = some { ok := false, data := [], uart := u, clock := t + 1 }) ∧
      (∀ fuel, fuel < t - k → read_array pf fuel u n k = none) := by
  have hq : ∀ i, k < i → i < j → yield_ pf u i = u := by
    intro i hi1 hi2
    simp [yield_, hquiet i hi1 hi2]
  obtain ⟨t, h1, h2, h3, h4, h5, h6⟩ := check_read_timeout_fails pf u n k j hav hj hq hclock
  refine ⟨t, h1, h2, h3, h4, ?_, ?_⟩
  · intro fuel hfuel
    simp [read_array, h5 fuel hfuel]
  · intro fuel hfuel
    simp [read_array, h6 fuel hfuel]

/-- Witness for `read_array_timeout`: two bytes buffered, three requested, the clock
advancing by 30 ms per reading; the call returns at the fourth reading after the start. -/
theorem read_array_timeout_witness :
    exampleUart2.available < 3 ∧ 100 < elapsed quietPlatform (quietPlatform.millis 0) 4 ∧
    read_array quietPlatform 4 exampleUart2 3 0
      = some { ok := false, data := [], uart := exampleUart2, clock := 5 } ∧
    ∃ t, 0 < t ∧ t ≤ 4 ∧ 100 < elapsed quietPlatform (quietPlatform.millis 0) t ∧
      (∀ i, 0 < i → i < t → elapsed quietPlatform (quietPlatform.millis 0) i ≤ 100) ∧
      (∀ fuel, t - 0 ≤ fuel →
        read_array quietPlatform fuel exampleUart2 3 0
          = some { ok := false, data := [], uart := exampleUart2, clock := t + 1 }) ∧
      (∀ fuel, fuel < t - 0 → read_array quietPlatform fuel exampleUart2 3 0 = none) :=
  ⟨by decide, by decide, by decide,
    read_array_timeout quietPlatform exampleUart2 3 0 4 (by decide) (by decide)
      (fun _ _ _ => rfl) (by decide)⟩

/-- C4: `peek_byte` never advances the read position. For every state of the software
channel with at least one byte available, `peek_byte` succeeds at once and leaves the
object unchanged (read index, write index, buffer contents), and the `read_byte` that
follows it, with no byte received in between, succeeds and delivers the same byte. -/
theorem peek_then_read (pf : Platform) (fuel fuel' : Nat) (u : UARTComponent) (k : Nat)
    (hav : 1 ≤ u.available) :
    ∃ r, peek_byte pf fuel u k = some r ∧ r.ok = true ∧ r.uart = u ∧ r.clock = k ∧
      r.data = [u.sw_serial_.rx_buffer_.getD u.sw_serial_.rx_out_pos_ 0] ∧
      ∃ r', read_byte pf fuel' r.uart r.clock = some r' ∧ r'.ok = true ∧ r'.data = r.data := by
  have hne : u.sw_serial_.rx_in_pos_ ≠ u.sw_serial_.rx_out_pos_ := by
    intro h
    have := sw_available_of_eq u.sw_serial_ h
    unfold available at hav
    omega
  have hchk : ∀ f, check_read_timeout_ pf f u 1 k = some (true, u, k) := by
    intro f
    simp [check_read_timeout_, hav]
  refine ⟨{ ok := true, data := [u.sw_serial_.rx_buffer_.getD u.sw_serial_.rx_out_pos_ 0],
            uart := u, clock := k }, ?_, rfl, rfl, rfl, rfl, ?_⟩
  · simp only [peek_byte, default_len, hchk, ESP8266SoftwareSerial.peek_byte, if_neg hne]
  · simp only [read_byte, default_len, hchk, ESP8266SoftwareSerial.read_byte, if_neg hne,
      Option.some.injEq, exists_eq_left', and_self]

/-- Witness for `peek_then_read`: both calls deliver 0x41. -/
theorem peek_then_read_witness :
    1 ≤ exampleUart2.available ∧
    ∃ r, peek_byte quietPlatform 0 exampleUart2 0 = some r ∧ r.ok = true ∧
      r.uart = exampleUart2 ∧ r.clock = 0 ∧
      r.data = [exampleUart2.sw_serial_.rx_buffer_.getD exampleUart2.sw_serial_.rx_out_pos_ 0] ∧
      ∃ r', read_byte quietPlatform 0 r.uart r.clock = some r' ∧ r'.ok = true ∧
        r'.data = r.data :=
  ⟨by decide, peek_then_read quietPlatform 0 0 exampleUart2 0 (by decide)⟩

/-- C5: for every state of the software channel (any values of the read index, the write
index and the buffer contents), `available()` called right after `flush()` returns 0. -/
theorem available_after_flush (u : UARTComponent) :
    u.flush.available = 0 ∧ u.sw_serial_.flush.available = 0 := by
  constructor <;>
    simp [available, flush, ESP8266SoftwareSerial.available, ESP8266SoftwareSerial.flush, toInt32]

/-! ### A channel without receive pin -/

theorem check_no_rx (pf : Platform)
    (hclock : ∀ k, ∃ j, k < j ∧ 100 < elapsed pf (pf.millis k) j)
    (u : UARTComponent) (len k : Nat) (hlen : 1 ≤ len)
    (hrx : u.rx_pin_ = -1) (hempty : u.sw_serial_.rx_in_pos_ = u.sw_serial_.rx_out_pos_) :
    ∃ t, k < t ∧ 100 < elapsed pf (pf.millis k) t ∧
      (∀ fuel, t - k ≤ fuel → check_read_timeout_ pf fuel u len k = some (false, u, t + 1)) ∧
      (∀ fuel, fuel < t - k → check_read_timeout_ pf fuel u len k = none) := by
  obtain ⟨j, hj, hcl⟩ := hclock k
  have hav : u.available < len := by
    have := sw_available_of_eq u.sw_serial_ hempty
    unfold available
    omega
  have hq : ∀ i, k < i → i < j → yield_ pf u i = u := by
    intro i _ _
    simp [yield_, hrx]
  obtain ⟨t, h1, _, h3, _, h5, h6⟩ := check_read_timeout_fails pf u len k j hav hj hq hcl
  exact ⟨t, h1, h3, h5, h6⟩

theorem call_no_rx (pf : Platform)
    (hclock : ∀ k, ∃ j, k < j ∧ 100 < elapsed pf (pf.millis k) j)
    (c : Call) (u : UARTComponent) (k : Nat)
    (hrx : u.rx_pin_ = -1) (hempty : u.sw_serial_.rx_in_pos_ = u.sw_serial_.rx_out_pos_) :
    ∃ fuel0 st, st.1.rx_pin_ = -1 ∧
      st.1.sw_serial_.rx_in_pos_ = st.1.sw_serial_.rx_out_pos_ ∧
      (∀ fuel, fuel0 ≤ fuel → call pf fuel (u, k) c = some st) ∧
      (∀ fuel st', call pf fuel (u, k) c = some st' → st' = st) := by
  have timeout : ∀ len, 1 ≤ len → ∀ (f : Nat → Option ReadResult),
      (∀ fuel, f fuel = match check_read_timeout_ pf fuel u len k with
        | none => none
        | some (false, u1, k1) => some { ok := false, data := [], uart := u1, clock := k1 }
        | some (true, u1, k1) => f fuel) →
      ∃ fuel0 st, st.1.rx_pin_ = -1 ∧
        st.1.sw_serial_.rx_in_pos_ = st.1.sw_serial_.rx_out_pos_ ∧
        (∀ fuel, fuel0 ≤ fuel → (f fuel).map (fun r => (r.uart, r.clock)) = some st) ∧
        (∀ fuel st', (f fuel).map (fun r => (r.uart, r.clock)) = some st' → st' = st) := by
    intro len hlen f hf
    obtain ⟨t, _, _, h5, h6⟩ := check_no_rx pf hclock u len k hlen hrx hempty
    refine ⟨t - k, (u, t + 1), hrx, hempty, ?_, ?_⟩
    · intro fuel hfuel
      rw [hf fuel, h5 fuel hfuel]
      rfl
    · intro fuel st' hst
      by_cases hfuel : t - k ≤ fuel
      · rw [hf fuel, h5 fuel hfuel] at hst
        exact (Option.some.inj hst).symm
      · rw [hf fuel, h6 fuel (by omega)] at hst
        cases hst
  cases c with
  | write_byte data => exact ⟨0, (u, k), hrx, hempty, fun _ _ => rfl, fun _ _ h => (Option.some.inj h).symm⟩
  | write_array data => exact ⟨0, (u, k), hrx, hempty, fun _ _ => rfl, fun _ _ h => (Option.some.inj h).symm⟩
  | write_str str => exact ⟨0, (u, k), hrx, hempty, fun _ _ => rfl, fun _ _ h => (Option.some.inj h).symm⟩
  | flush => exact ⟨0, (u.flush, k), hrx, rfl, fun _ _ => rfl, fun _ _ h => (Option.some.inj h).symm⟩
  | read_byte =>
    apply timeout 1 le_rfl (fun fuel => read_byte pf fuel u k)
    intro fuel
    obtain ⟨t, _, _, h5, h6⟩ := check_no_rx pf hclock u 1 k le_rfl hrx hempty
    by_cases hfuel : t - k ≤ fuel
    · simp only [read_byte, default_len, h5 fuel hfuel]
    · simp only [read_byte, default_len, h6 fuel (by omega)]
  | peek_byte =>
    apply timeout 1 le_rfl (fun fuel => peek_byte pf fuel u k)
    intro fuel
    obtain ⟨t, _, _, h5, h6⟩ := check_no_rx pf hclock u 1 k le_rfl hrx hempty
    by_cases hfuel : t - k ≤ fuel
    · simp only [peek_byte, default_len, h5 fuel hfuel]
    · simp only [peek_byte, default_len, h6 fuel (by omega)]
  | read_array len =>
    by_cases hlen : len = 0
    · subst hlen
      have hchk : ∀ fuel, check_read_timeout_ pf fuel u 0 k = some (true, u, k) := by
        intro fuel
        simp [check_read_timeout_]
      have hcall : ∀ fuel, call pf fuel (u, k) (.read_array 0) = some (u, k) := by
        intro fuel
        simp only [call, read_array, hchk, ESP8266SoftwareSerial.read_bytes, Option.map_some']
      refine ⟨0, (u, k), hrx, hempty, fun fuel _ => hcall fuel, fun fuel st' h => ?_⟩
      rw [hcall fuel] at h
      exact (Option.some.inj h).symm
    · apply timeout len (by omega) (fun fuel => read_array pf fuel u len k)
      intro fuel
      obtain ⟨t, _, _, h5, h6⟩ := check_no_rx pf hclock u len k (by omega) hrx hempty
      by_cases hfuel : t - k ≤ fuel
      · simp only [read_array, h5 fuel hfuel]
      · simp only [read_array, h6 fuel (by omega)]

theorem calls_no_rx (pf : Platform)
    (hclock : ∀ k, ∃ j, k < j ∧ 100 < elapsed pf (pf.millis k) j)
    (cs : List Call) : ∀ (u : UARTComponent) (k : Nat),
    u.rx_pin_ = -1 → u.sw_serial_.rx_in_pos_ = u.sw_serial_.rx_out_pos_ →
    ∃ fuel0 st, st.1.rx_pin_ = -1 ∧
      st.1.sw_serial_.rx_in_pos_ = st.1.sw_serial_.rx_out_pos_ ∧
      (∀ fuel, fuel0 ≤ fuel → calls pf fuel cs (u, k) = some st) ∧
      (∀ fuel st', calls pf fuel cs (u, k) = some st' → st' = st) := by
  induction cs with
  | nil =>
    intro u k hrx hempty
    exact ⟨0, (u, k), hrx, hempty, fun _ _ => rfl, fun _ _ h => (Option.some.inj h).symm⟩
  | cons c cs ih =>
    intro u k hrx hempty
    obtain ⟨f1, st1, hrx1, hempty1, hrun1, hdet1⟩ := call_no_rx pf hclock c u k hrx hempty
    obtain ⟨f2, st2, hrx2, hempty2, hrun2, hdet2⟩ := ih st1.1 st1.2 hrx1 hempty1
    refine ⟨max f1 f2, st2, hrx2, hempty2, ?_, ?_⟩
    · intro fuel hfuel
      simp only [calls, hrun1 fuel (le_trans (le_max_left _ _) hfuel)]
      exact hrun2 fuel (le_trans (le_max_right _ _) hfuel)
    · intro fuel st' hst
      simp only [calls] at hst
      cases hc : call pf fuel (u, k) c with
      | none => rw [hc] at hst; cases hst
      | some st1' =>
        rw [hc] at hst
        have := hdet1 fuel st1' hc
        subst this
        exact hdet2 fuel st' hst

/-- C7, as stated, fails for the requested length 0: on a channel set up without receive
pin, `read_array(data, 0)` returns `true` at once. -/
theorem read_array_zero_no_rx_counterexample :
    (create 64 1 (-1) 9600).map (setup 80000000 []) = some noRxUart ∧
    noRxUart.available = 0 ∧
    (read_array quietPlatform 0 noRxUart 0 0).map (fun r => r.ok) = some true := by
  decide

/-- C7, amended: for a software channel set up with no receive pin (`rx_pin = -1`), every
sequence of public calls (writes, reads, peeks, flush) runs to completion, and in every
state so reached `available()` returns 0, `read_byte`, `peek_byte` and `read_array` for
every requested length `n ≥ 1` fail by returning `false` with the object unchanged, once a
clock reading lies more than 100 ms after the start of the wait; `read_array` for the
length 0 returns `true` at once. The millisecond clock is assumed to advance: after every
reading there is a later one more than 100 ms past it. -/
theorem no_receive_pin (pf : Platform)
    (hclock : ∀ k, ∃ j, k < j ∧ 100 < elapsed pf (pf.millis k) j)
    (F_CPU : Nat) (cells : List Nat) (capacity : Nat) (tx_pin : Int) (baud_rate : Nat)
    (u0 : UARTComponent) (hu0 : create capacity tx_pin (-1) baud_rate = some u0)
    (cs : List Call) :
    (∃ fuel0 st, ∀ fuel, fuel0 ≤ fuel →
      calls pf fuel cs (setup F_CPU cells u0, 0) = some st) ∧
    ∀ fuel u k, calls pf fuel cs (setup F_CPU cells u0, 0) = some (u, k) →
      u.available = 0 ∧
      (∃ t, k < t ∧ 100 < elapsed pf (pf.millis k) t ∧ ∀ fuel', t - k ≤ fuel' →
        read_byte pf fuel' u k
          = some { ok := false, data := [], uart := u, clock := t + 1 }) ∧
      (∃ t, k < t ∧ 100 < elapsed pf (pf.millis k) t ∧ ∀ fuel', t - k ≤ fuel' →
        peek_byte pf fuel' u k
          = some { ok := false, data := [], uart := u, clock := t + 1 }) ∧
      (∀ n, 1 ≤ n →
        ∃ t, k < t ∧ 100 < elapsed pf (pf.millis k) t ∧ ∀ fuel', t - k ≤ fuel' →
          read_array pf fuel' u n k
            = some { ok := false, data := [], uart := u, clock := t + 1 }) ∧
      (∀ fuel', read_array pf fuel' u 0 k
        = some { ok := true, data := [], uart := u, clock := k }) := by
  have hu : u0 = { tx_pin_ := tx_pin, rx_pin_ := -1, baud_rate_ := baud_rate,
                   sw_serial_ := ESP8266SoftwareSerial.fresh capacity } := by
    unfold create at hu0
    rw [if_neg (fun h => absurd h.1 (by decide))] at hu0
    exact (Option.some.inj hu0).symm
  have hrx0 : (setup F_CPU cells u0).rx_pin_ = -1 := by
    rw [hu]
    rfl
  have hempty0 : (setup F_CPU cells u0).sw_serial_.rx_in_pos_
      = (setup F_CPU cells u0).sw_serial_.rx_out_pos_ := by
    rw [hu]
    simp only [setup, ESP8266SoftwareSerial.setup, ESP8266SoftwareSerial.fresh]
    split_ifs <;> rfl
  obtain ⟨f0, st, hrx, hempty, hrun, hdet⟩ := calls_no_rx pf hclock cs _ 0 hrx0 hempty0
  refine ⟨⟨f0, st, hrun⟩, ?_⟩
  intro fuel u k hreach
  have hst := hdet fuel (u, k) hreach
  subst hst
  simp only at hrx hempty
  refine ⟨sw_available_of_eq _ hempty, ?_, ?_, ?_, ?_⟩
  · obtain ⟨t, h1, h2, h5, _⟩ := check_no_rx pf hclock u 1 k le_rfl hrx hempty
    refine ⟨t, h1, h2, fun fuel' hfuel => ?_⟩
    simp only [read_byte, default_len, h5 fuel' hfuel]
  · obtain ⟨t, h1, h2, h5, _⟩ := check_no_rx pf hclock u 1 k le_rfl hrx hempty
    refine ⟨t, h1, h2, fun fuel' hfuel => ?_⟩
    simp only [peek_byte, default_len, h5 fuel' hfuel]
  · intro n hn
    obtain ⟨t, h1, h2, h5, _⟩ := check_no_rx pf hclock u n k hn hrx hempty
    refine ⟨t, h1, h2, fun fuel' hfuel => ?_⟩
    simp only [read_array, h5 fuel' hfuel]
  · intro fuel'
    have hchk : check_read_timeout_ pf fuel' u 0 k = some (true, u, k) := by
      simp [check_read_timeout_]
    simp only [read_array, hchk, ESP8266SoftwareSerial.read_bytes]

/-- The clock of `quietPlatform` advances past every timeout window. -/
theorem quietPlatform_advances :
    ∀ k, ∃ j, k < j ∧ 100 < elapsed quietPlatform (quietPlatform.millis k) j := by
  intro k
  refine ⟨k + 4, by omega, ?_⟩
  simp only [elapsed, quietPlatform, WORD]
  omega

/-- Witness for `no_receive_pin`: a channel on transmit pin 1 without receive pin, and the
calls write, read, flush, read two bytes. -/
theorem no_receive_pin_witness :
    (∀ k, ∃ j, k < j ∧ 100 < elapsed quietPlatform (quietPlatform.millis k) j) ∧
    create 64 1 (-1) 9600
      = some { tx_pin_ := 1, rx_pin_ := -1, baud_rate_ := 9600,
               sw_serial_ := ESP8266SoftwareSerial.fresh 64 } ∧
    calls quietPlatform 4 [.write_byte 0x41, .read_byte, .flush, .read_array 2] (noRxUart, 0)
      = some (noRxUart, 10) ∧
    ∃ fuel0 st, ∀ fuel, fuel0 ≤ fuel →
      calls quietPlatform fuel [.write_byte 0x41, .read_byte, .flush, .read_array 2]
        (noRxUart, 0) = some st :=
  ⟨quietPlatform_advances, by decide, by decide,
    (no_receive_pin quietPlatform quietPlatform_advances 80000000 [] 64 1 9600
      { tx_pin_ := 1, rx_pin_ := -1, baud_rate_ := 9600,
        sw_serial_ := ESP8266SoftwareSerial.fresh 64 }
      (by decide) [.write_byte 0x41, .read_byte, .flush, .read_array 2]).1⟩

end UARTComponent

/-! ## Claims about framing and bit timing -/

namespace ESP8266SoftwareSerial

theorem write_byte_levels (s : ESP8266SoftwareSerial) (b : Nat) (htx : s.tx_mask_ ≠ 0)
    (hb : b < 256) :
    (s.write_byte b).map Prod.fst
      = [false, b.testBit 0, b.testBit 1, b.testBit 2, b.testBit 3, b.testBit 4, b.testBit 5,
         b.testBit 6, b.testBit 7, true] := by
  simp only [write_byte, if_neg htx, write_bit_, List.map_cons, List.map_nil]
  interval_cases b <;> decide

theorem gpio_intr_received_of_samples (s : ESP8266SoftwareSerial) (b : Nat) (hb : b < 256)
    (gpi : Nat → Nat)
    (h : ∀ k, k < 8 → ((gpi k &&& s.rx_mask_ ≠ 0) ↔ b.testBit k = true)) :
    (s.gpio_intr_ gpi).received = b := by
  simp only [gpio_intr_, read_bit_, h 0 (by decide), h 1 (by decide), h 2 (by decide),
    h 3 (by decide), h 4 (by decide), h 5 (by decide), h 6 (by decide), h 7 (by decide)]
  interval_cases b <;> decide

theorem loopback_sample (s : ESP8266SoftwareSerial) (b : Nat) (htx : s.tx_mask_ ≠ 0)
    (hrx : s.rx_mask_ ≠ 0) (hb : b < 256) (k : Nat) (hk : k < 8) :
    (s.loopback (s.write_byte b) k &&& s.rx_mask_ ≠ 0) ↔ b.testBit k = true := by
  unfold loopback
  rw [write_byte_levels s b htx hb]
  have hcell : [false, b.testBit 0, b.testBit 1, b.testBit 2, b.testBit 3, b.testBit 4,
      b.testBit 5, b.testBit 6, b.testBit 7, true].getD (k + 1) true = b.testBit k := by
    interval_cases k <;> rfl
  simp only [hcell]
  cases b.testBit k <;> simp [hrx]

/-- C2: frame round trip. With a transmit and a receive pin configured, for every byte `b`:
`write_byte(b)` drives the ten line levels low, bit 0 of `b`, ..., bit 7 of `b`, high (one
start bit, eight data bits least significant first, one stop bit); whenever `gpio_intr_`
samples the eight data cells of that frame once each, in order, the byte it reconstructs
and stores at the write index is `b`. Hence for every byte sequence transmitted byte by
byte and looped back the stored bytes equal the written ones, in order; in particular the
bytes of the string AT, carriage return, line feed yield 0x41, 0x54, 0x0D, 0x0A. -/
theorem frame_round_trip (s : ESP8266SoftwareSerial)
    (htx : s.tx_mask_ ≠ 0) (hrx : s.rx_mask_ ≠ 0) :
    (∀ b, b < 256 →
      (s.write_byte b).map Prod.fst
        = [false, b.testBit 0, b.testBit 1, b.testBit 2, b.testBit 3, b.testBit 4,
           b.testBit 5, b.testBit 6, b.testBit 7, true] ∧
      ∀ gpi : Nat → Nat,
        (∀ k, k < 8 → ((gpi k &&& s.rx_mask_ ≠ 0)
          ↔ ((s.write_byte b).map Prod.fst).getD (k + 1) true = true)) →
        (s.gpio_intr_ gpi).received = b ∧
        (s.gpio_intr_ gpi).state.rx_buffer_ = s.rx_buffer_.set s.rx_in_pos_ b) ∧
    (∀ bs : List Nat, (∀ b ∈ bs, b < 256) →
      s.received (bs.map (fun b => s.loopback (s.write_byte b))) = bs) ∧
    s.received ([0x41, 0x54, 0x0D, 0x0A].map (fun b => s.loopback (s.write_byte b)))
      = [0x41, 0x54, 0x0D, 0x0A] := by
  have hseq : ∀ bs : List Nat, (∀ b ∈ bs, b < 256) →
      s.received (bs.map (fun b => s.loopback (s.write_byte b))) = bs := by
    intro bs hbs
    induction bs with
    | nil => rfl
    | cons b bs ih =>
      have hb : b < 256 := hbs b (List.mem_cons_self _ _)
      have ih' := ih (fun c hc => hbs c (List.mem_cons_of_mem _ hc))
      simp only [received, List.map_cons, List.map_map] at ih' ⊢
      rw [ih', gpio_intr_received_of_samples s b hb _ (loopback_sample s b htx hrx hb)]
  refine ⟨?_, hseq, hseq _ (by decide)⟩
  intro b hb
  refine ⟨write_byte_levels s b htx hb, ?_⟩
  intro gpi hgpi
  have hcell : ∀ k, k < 8 →
      ((s.write_byte b).map Prod.fst).getD (k + 1) true = b.testBit k := by
    intro k hk
    rw [write_byte_levels s b htx hb]
    interval_cases k <;> rfl
  have hrec : (s.gpio_intr_ gpi).received = b :=
    gpio_intr_received_of_samples s b hb gpi
      (fun k hk => by rw [← hcell k hk]; exact hgpi k hk)
  refine ⟨hrec, ?_⟩
  rw [gpio_intr_state, hrec]

/-- Witness for `frame_round_trip`: `example8`, the byte 0x41 and the looped back samples
of its frame. -/
theorem frame_round_trip_witness :
    example8.tx_mask_ ≠ 0 ∧ example8.rx_mask_ ≠ 0 ∧ 0x41 < 256 ∧
    (example8.write_byte 0x41).map Prod.fst
      = [false, true, false, false, false, false, false, true, false, true] ∧
    (example8.gpio_intr_ (example8.loopback (example8.write_byte 0x41))).received = 0x41 ∧
    (example8.gpio_intr_ (example8.loopback (example8.write_byte 0x41))).state.rx_buffer_
      = example8.rx_buffer_.set example8.rx_in_pos_ 0x41 :=
  ⟨by decide, by decide, by decide, by decide,
    ((frame_round_trip example8 (by decide) (by decide)).1 0x41 (by decide)).2
      (example8.loopback (example8.write_byte 0x41)) (by decide)⟩

/-- C9, as stated, fails: at 9600 baud and 80 MHz the bit period is 8333 cycles and the wait
computed on entry of `gpio_intr_` is 10610 cycles, more than one full bit period. -/
theorem first_wait_counterexample :
    example9600.bit_time_ = 8333 ∧
    (example9600.gpio_intr_ (fun _ => 0)).deadlines.head? = some 10610 ∧
    ¬ (10610 < example9600.bit_time_) := by
  decide

theorem gpio_intr_deadlines (s : ESP8266SoftwareSerial) (gpi : Nat → Nat) :
    (s.gpio_intr_ gpi).deadlines
      = [(s.bit_time_ + s.bit_time_ / 3 + (WORD - 500)) % WORD,
         s.wait_ ((s.bit_time_ + s.bit_time_ / 3 + (WORD - 500)) % WORD),
         s.wait_ (s.wait_ ((s.bit_time_ + s.bit_time_ / 3 + (WORD - 500)) % WORD)),
         s.wait_ (s.wait_ (s.wait_ ((s.bit_time_ + s.bit_time_ / 3 + (WORD - 500)) % WORD))),
         s.wait_ (s.wait_ (s.wait_ (s.wait_
           ((s.bit_time_ + s.bit_time_ / 3 + (WORD - 500)) % WORD)))),
         s.wait_ (s.wait_ (s.wait_ (s.wait_ (s.wait_
           ((s.bit_time_ + s.bit_time_ / 3 + (WORD - 500)) % WORD))))),
         s.wait_ (s.wait_ (s.wait_ (s.wait_ (s.wait_ (s.wait_
           ((s.bit_time_ + s.bit_time_ / 3 + (WORD - 500)) % WORD)))))),
         s.wait_ (s.wait_ (s.wait_ (s.wait_ (s.wait_ (s.wait_ (s.wait_
           ((s.bit_time_ + s.bit_time_ / 3 + (WORD - 500)) % WORD))))))),
         s.wait_ (s.wait_ (s.wait_ (s.wait_ (s.wait_ (s.wait_ (s.wait_ (s.wait_
           ((s.bit_time_ + s.bit_time_ / 3 + (WORD - 500)) % WORD))))))))] := by
  simp only [gpio_intr_, read_bit_]

theorem first_wait_arith (bt : Nat) (h1 : 375 ≤ bt) (h2 : bt + bt / 3 < WORD) :
    (bt + bt / 3 + (WORD - 500)) % WORD = bt + bt / 3 - 500 := by
  unfold WORD at h2 ⊢
  norm_num at h2 ⊢
  omega


/-- C9, amended: for every bit period `bit_time_` (a 32 bit cycle count), the wait that
`gpio_intr_` computes on entry is `bit_time_ + bit_time_ / 3 - 500` in 32 bit unsigned
arithmetic, one and a third bit periods less 500 cycles: when nothing wraps around
(`375 ≤ bit_time_` and `bit_time_ + bit_time_ / 3 < 2 ^ 32`) it is below one bit period
exactly when `bit_time_ < 1500`. There are nine waits, for the eight data samples and the
stop bit, and each is exactly one bit period (modulo `2 ^ 32`) after the previous one. -/
theorem wait_schedule (s : ESP8266SoftwareSerial) (gpi : Nat → Nat) :
    (s.gpio_intr_ gpi).deadlines
      = List.iterate (fun wait => (wait + s.bit_time_) % WORD)
          ((s.bit_time_ + s.bit_time_ / 3 + (WORD - 500)) % WORD) 9 ∧
    (375 ≤ s.bit_time_ → s.bit_time_ + s.bit_time_ / 3 < WORD →
      (s.gpio_intr_ gpi).deadlines.head? = some (s.bit_time_ + s.bit_time_ / 3 - 500) ∧
      (s.bit_time_ + s.bit_time_ / 3 - 500 < s.bit_time_ ↔ s.bit_time_ < 1500)) := by
  rw [gpio_intr_deadlines]
  refine ⟨?_, ?_⟩
  · simp only [List.iterate, wait_]
  · intro h1 h2
    refine ⟨?_, by omega⟩
    simp only [List.head?_cons, first_wait_arith _ h1 h2]

/-- Witness for `wait_schedule`: 115200 baud at 80 MHz, bit period 694 cycles, first wait
425 cycles. -/
theorem wait_schedule_witness :
    375 ≤ example4.bit_time_ ∧ example4.bit_time_ + example4.bit_time_ / 3 < WORD ∧
    (example4.gpio_intr_ (fun _ => 0)).deadlines
      = [425, 1119, 1813, 2507, 3201, 3895, 4589, 5283, 5977] ∧
    (example4.gpio_intr_ (fun _ => 0)).deadlines.head?
      = some (example4.bit_time_ + example4.bit_time_ / 3 - 500) ∧
    (example4.bit_time_ + example4.bit_time_ / 3 - 500 < example4.bit_time_
      ↔ example4.bit_time_ < 1500) :=
  ⟨by decide, by decide, by decide,
    (wait_schedule example4 (fun _ => 0)).2 (by decide) (by decide)⟩

end ESP8266SoftwareSerial

end esphomelib
